import Mathlib

/-!
Verification of `src/metadata/query.rs`.

A shallow embedding of the metadata-query module of the repository.  The
module drives a Wasm virtual machine through the `Metadata_metadata` entry
point and then strips a SCALE-compact length prefix from the output.

Bytes are modelled as natural numbers (`List Nat`); in the program every
byte is `< 256`, and all definitions below agree with the program on such
lists.  The `usize`/`u64` overflow checks of the program are modelled with
explicit `2 ^ 64` bounds on exact `Nat` arithmetic.

The executor (virtual machine) lives outside this module; it is modelled
from the spec as the sequence of execution states the machine reports at
successive observation points.
-/

namespace MetadataQuery

/-- Modelled from the spec: the opaque error returned by the external
executor when the virtual machine cannot be created or the entry point
cannot be started (`executor::NewErr`). -/
structure NewErr where
  code : Nat
deriving DecidableEq

/-- Error when retrieving the metadata (`enum Error` in
`src/metadata/query.rs`). -/
inductive Error where
  /-- Error when initializing the virtual machine. -/
  | VmInitialization (e : NewErr)
  /-- Crash while running the virtual machine. -/
  | Trapped
  /-- Virtual machine tried to call an externality that isn't valid in this
  context. -/
  | ExternalityNotAllowed
  /-- Length prefix doesn't match actual length of the metadata. -/
  | BadLengthPrefix
deriving DecidableEq

namespace executor

/-- Modelled from the spec: the execution state reported by the external
executor (`executor::State`).  `ReadyToRun` must be advanced, `Finished`
carries the raw output, `Trapped` is a crash, `LogEmit` is a log request
that is resolved with a unit value, and `Other` stands for every remaining
variant of the executor's state enumeration (storage requests and other
externalities), tagged by an arbitrary discriminant. -/
inductive State where
  | ReadyToRun
  | Finished (data : List Nat)
  | Trapped
  | LogEmit (log : List Nat)
  | Other (ext : Nat)
deriving DecidableEq

end executor

/-- Modelled from the spec: a virtual machine prototype
(`executor::WasmVmPrototype`).  Its behaviour on
`run_no_param("Metadata_metadata")` is either an initialization error or
the sequence of states observed at successive observation points of the
run.  On `Finished`, `into_prototype` gives back the same prototype, as the
source documents: it returns back the same virtual machine prototype as
was passed as parameter. -/
structure WasmVmPrototype where
  startResult : Except NewErr (List executor.State)

/-- Little-endian interpretation of a list of bytes as a natural number. -/
def leBytesToNat : List Nat → Nat
  | [] => 0
  | b :: bs => b + 256 * leBytesToNat bs

/-- Modelled from the spec: the external
`parity_scale_codec::Compact::<u64>::decode`.  Decodes a SCALE
compact-encoded unsigned integer from the front of the buffer.  The two
low bits of the first byte select the mode; modes 1, 2 and 3 reject
non-canonical (non-minimal) encodings, and running out of bytes is a
decoding error (`none`). -/
def compactDecode (l : List Nat) : Option Nat :=
  match l with
  | [] => none
  | b0 :: rest =>
    if b0 % 4 = 0 then some (b0 / 4)
    else if b0 % 4 = 1 then
      match rest with
      | [] => none
      | b1 :: _ =>
        let x := (b0 + b1 * 256) / 4
        if 63 < x ∧ x ≤ 16383 then some x else none
    else if b0 % 4 = 2 then
      match rest with
      | b1 :: b2 :: b3 :: _ =>
        let x := (b0 + b1 * 2 ^ 8 + b2 * 2 ^ 16 + b3 * 2 ^ 24) / 4
        if 16383 < x ∧ x ≤ 1073741823 then some x else none
      | _ => none
    else
      let k := b0 / 4 + 4
      if k = 4 then
        if rest.length < 4 then none
        else
          let x := leBytesToNat (rest.take 4)
          if 1073741823 < x then some x else none
      else if k = 8 then
        if rest.length < 8 then none
        else
          let x := leBytesToNat (rest.take 8)
          if 72057594037927935 < x then some x else none
      else if k < 8 then
        if rest.length < k then none
        else
          let x := leBytesToNat (rest.take k)
          if 2 ^ (8 * (k - 1)) - 1 < x then some x else none
      else none

/-- Modelled from the spec: the external
`parity_scale_codec::Compact::<u64>::compact_len`, the number of bytes the
canonical compact encoding of a value occupies (prefix byte included in
mode 3).  For `v ≥ 2 ^ 30` the program computes
`(8 - v.leading_zeros() / 8) + 1` on `u64`, which for `v < 2 ^ 64` equals
the expression below (`leading_zeros v = 63 - Nat.log2 v`). -/
def compactLen (v : Nat) : Nat :=
  if v ≤ 63 then 1
  else if v ≤ 16383 then 2
  else if v ≤ 1073741823 then 4
  else (8 - (63 - Nat.log2 v) / 8) + 1

/-- The `usize::checked_add` of the program on a 64-bit target: the exact
sum when it fits in 64 bits, `none` on overflow. -/
def checkedAdd64 (a b : Nat) : Option Nat :=
  if a + b < 2 ^ 64 then some (a + b) else none

/-- `remove_length_prefix` from `src/metadata/query.rs`: decodes the
compact length prefix, computes its encoded length, verifies with
overflow-checked arithmetic that `decoded + prefix_len = metadata.length`,
and on success returns the buffer after the prefix. -/
def remove_length_prefix (metadata : List Nat) : Except Error (List Nat) :=
  match compactDecode metadata with
  | none => .error .BadLengthPrefix
  | some v =>
    let length_length := compactLen v
    match checkedAdd64 v length_length with
    | none => .error .BadLengthPrefix
    | some total =>
      if total ≠ metadata.length then .error .BadLengthPrefix
      else .ok (metadata.drop length_length)

/-- The step loop of `metadata_from_virtual_machine_prototype`, expressed
over the sequence of observed states: `ReadyToRun` advances and
re-observes, `Finished` breaks out through ` remove_length_prefix`,
`Trapped` and any non-log externality abort, `LogEmit` is resolved with a
unit value and the loop continues.  `none` models a run whose observed
sequence never reaches a terminal state (the loop would keep stepping). -/
def driveLoop : List executor.State → Option (Except Error (List Nat))
  | [] => none
  | .ReadyToRun :: rest => driveLoop rest
  | .Finished data :: _ => some ( remove_length_prefix data)
  | .Trapped :: _ => some (.error .Trapped)
  | .LogEmit _ :: rest => driveLoop rest
  | .Other _ :: _ => some (.error .ExternalityNotAllowed)

/-- `metadata_from_virtual_machine_prototype` from
`src/metadata/query.rs`: starts the call (surfacing start failure as
`VmInitialization`), runs the loop, and on success pairs the validated
metadata with the machine converted back to its prototype form. -/
def metadata_from_virtual_machine_prototype (vm : WasmVmPrototype) :
    Option (Except Error (List Nat × WasmVmPrototype)) :=
  match vm.startResult with
  | .error e => some (.error (.VmInitialization e))
  | .ok trace =>
    match driveLoop trace with
    | none => none
    | some (.error e) => some (.error e)
    | some (.ok out) => some (.ok (out, vm))

/-- `metadata_from_runtime_code` from `src/metadata/query.rs`.  The
external `executor::WasmVmPrototype::new` is passed as the argument
`newVm` (modelled from the spec: it either fails or produces a
prototype). -/
def metadata_from_runtime_code
    (newVm : List Nat → Nat → Except NewErr WasmVmPrototype)
    (wasm_code : List Nat) (heap_pages : Nat) :
    Option (Except Error (List Nat)) :=
  match newVm wasm_code heap_pages with
  | .error e => some (.error (.VmInitialization e))
  | .ok vm =>
    match metadata_from_virtual_machine_prototype vm with
    | none => none
    | some (.error e) => some (.error e)
    | some (.ok (out, _)) => some (.ok out)

/-- Modelled from the spec: the caller-facing contract of
`fetch_metadata_from_code` — create a fresh virtual machine from the code
and heap pages (surfacing creation failure as the initialization error),
call the prototype entry point on it, and return the metadata bytes alone,
dropping the returned prototype. -/
def fetch_metadata_from_code_spec
    (newVm : List Nat → Nat → Except NewErr WasmVmPrototype)
    (wasm_code : List Nat) (heap_pages : Nat) :
    Option (Except Error (List Nat)) :=
  match newVm wasm_code heap_pages with
  | .error e => some (.error (.VmInitialization e))
  | .ok vm =>
    Option.map (Except.map Prod.fst) (metadata_from_virtual_machine_prototype vm)

/-- Modelled from the spec: the canonical SCALE compact encoding of a
non-negative integer (the inverse of the decoder's accepted canonical
forms).  For values above `2 ^ 30 - 1` the encoding is a mode-3 prefix
byte followed by the minimal little-endian representation. -/
def natToLeBytes : Nat → Nat → List Nat
  | _, 0 => []
  | n, k + 1 => n % 256 :: natToLeBytes (n / 256) k

/-- Modelled from the spec: canonical SCALE compact encoding of `n`
(defined for `n < 2 ^ 64`, matching `Compact<u64>`). -/
def compactEncode (n : Nat) : List Nat :=
  if n ≤ 63 then [n * 4]
  else if n ≤ 16383 then
    [(n * 4 + 1) % 256, (n * 4 + 1) / 256]
  else if n ≤ 1073741823 then
    [(n * 4 + 2) % 256, (n * 4 + 2) / 256 % 256,
      (n * 4 + 2) / 2 ^ 16 % 256, (n * 4 + 2) / 2 ^ 24 % 256]
  else
    ((compactLen n - 5) * 4 + 3) :: natToLeBytes n (compactLen n - 1)

/-- The states on which the step loop keeps going instead of terminating:
`ReadyToRun` (advance one step) and `LogEmit` (resolve and re-observe). -/
def continuesLoop : executor.State → Bool
  | .ReadyToRun => true
  | .LogEmit _ => true
  | _ => false

instance {ε α : Type} [DecidableEq ε] [DecidableEq α] : DecidableEq (Except ε α) :=
  fun x y =>
    match x, y with
    | .error a, .error b => decidable_of_iff (a = b) (by simp)
    | .error _, .ok _ => isFalse (by simp)
    | .ok _, .error _ => isFalse (by simp)
    | .ok a, .ok b => decidable_of_iff (a = b) (by simp)

/-! ## Helper lemmas -/

theorem natToLeBytes_length (n k : Nat) : (natToLeBytes n k).length = k := by
  induction k generalizing n with
  | zero => rfl
  | succ k ih => simp [natToLeBytes, ih]

theorem leBytesToNat_natToLeBytes (k n : Nat) (h : n < 256 ^ k) :
    leBytesToNat (natToLeBytes n k) = n := by
  induction k generalizing n with
  | zero =>
    interval_cases n
    rfl
  | succ k ih =>
    have hdiv : n / 256 < 256 ^ k := by
      rw [Nat.div_lt_iff_lt_mul (by norm_num)]
      calc n < 256 ^ (k + 1) := h
        _ = 256 ^ k * 256 := by ring
    simp only [natToLeBytes, leBytesToNat, ih (n / 256) hdiv]
    omega

theorem take_natToLeBytes_append (n k : Nat) (tail : List Nat) :
    (natToLeBytes n k ++ tail).take k = natToLeBytes n k :=
  List.take_left' (natToLeBytes_length n k)

theorem compactLen_pos (v : Nat) : 1 ≤ compactLen v := by
  unfold compactLen
  split_ifs <;> omega

theorem compactEncode_length (n : Nat) :
    (compactEncode n).length = compactLen n := by
  unfold compactEncode compactLen
  split_ifs <;> simp [natToLeBytes_length]

theorem compactLen_mode3 (n k : Nat) (hn : 1073741823 < n)
    (hlo : 8 * (k - 1) ≤ Nat.log2 n) (hhi : Nat.log2 n < 8 * k)
    (hk : 4 ≤ k) (hk8 : k ≤ 8) :
    compactLen n = k + 1 := by
  have h1 : ¬n ≤ 63 := by omega
  have h2 : ¬n ≤ 16383 := by omega
  have h3 : ¬n ≤ 1073741823 := by omega
  unfold compactLen
  rw [if_neg h1, if_neg h2, if_neg h3]
  omega

theorem compactDecode_encode (n : Nat) (h64 : n < 2 ^ 64)
    (tail : List Nat) :
    compactDecode (compactEncode n ++ tail) = some n := by
  by_cases h1 : n ≤ 63
  · have hb : n * 4 % 4 = 0 := by omega
    have hv : n * 4 / 4 = n := by omega
    simp [compactEncode, h1, compactDecode, hb, hv]
  · by_cases h2 : n ≤ 16383
    · have hb0 : ¬(n * 4 + 1) % 256 % 4 = 0 := by omega
      have hb1 : (n * 4 + 1) % 256 % 4 = 1 := by omega
      have hval : ((n * 4 + 1) % 256 + (n * 4 + 1) / 256 * 256) / 4 = n := by
        omega
      have hrange : 63 < n ∧ n ≤ 16383 := ⟨by omega, h2⟩
      simp only [compactEncode, if_neg h1, if_pos h2, List.cons_append,
        List.nil_append]
      unfold compactDecode
      simp only []
      rw [if_neg hb0, if_pos hb1]
      simp [hval, hrange]
    · by_cases h3 : n ≤ 1073741823
      · have hb0 : ¬(n * 4 + 2) % 256 % 4 = 0 := by omega
        have hb1 : ¬(n * 4 + 2) % 256 % 4 = 1 := by omega
        have hb2 : (n * 4 + 2) % 256 % 4 = 2 := by omega
        simp only [compactEncode, if_neg h1, if_neg h2, if_pos h3,
          List.cons_append, List.nil_append]
        unfold compactDecode
        simp only []
        rw [if_neg hb0, if_neg hb1, if_pos hb2]
        simp
        omega
      · -- mode 3: 2 ^ 30 ≤ n < 2 ^ 64, with 4 to 8 little-endian data bytes
        have hn0 : n ≠ 0 := by omega
        have hlog_hi : Nat.log2 n < 64 := (Nat.log2_lt hn0).2 h64
        -- the number of data bytes, determined by the range of n
        obtain ⟨k, hk4, hk8, hklo, hkhi⟩ :
            ∃ k, 4 ≤ k ∧ k ≤ 8 ∧ 8 * (k - 1) ≤ Nat.log2 n ∧
              Nat.log2 n < 8 * k := by
          refine ⟨Nat.log2 n / 8 + 1, ?_, ?_, ?_, ?_⟩ <;>
            first
              | omega
              | (have h30 : 30 ≤ Nat.log2 n := (Nat.le_log2 hn0).2 (by omega)
                 omega)
        have hL : compactLen n = k + 1 := compactLen_mode3 n k (by omega) hklo hkhi hk4 hk8
        have hlo : 2 ^ (8 * (k - 1)) ≤ n := (Nat.le_log2 hn0).1 hklo
        have hhi : n < 2 ^ (8 * k) := (Nat.log2_lt hn0).1 hkhi
        have hn256 : n < 256 ^ k := by
          calc n < 2 ^ (8 * k) := hhi
            _ = 256 ^ k := by rw [Nat.pow_mul]
        have hb0mod : ((k + 1 - 5) * 4 + 3) % 4 = 3 := by omega
        have hb0div : ((k + 1 - 5) * 4 + 3) / 4 + 4 = k := by omega
        have htake := take_natToLeBytes_append n k tail
        have hlenge : ¬(natToLeBytes n k ++ tail).length < k := by
          simp [natToLeBytes_length]
        have hx : leBytesToNat ((natToLeBytes n k ++ tail).take k) = n := by
          rw [htake]
          exact leBytesToNat_natToLeBytes k n hn256
        simp only [compactEncode, if_neg h1, if_neg h2, if_neg h3, hL,
          Nat.add_sub_cancel, List.cons_append]
        unfold compactDecode
        simp only []
        rw [if_neg (by omega : ¬((k + 1 - 5) * 4 + 3) % 4 = 0),
          if_neg (by omega : ¬((k + 1 - 5) * 4 + 3) % 4 = 1),
          if_neg (by omega : ¬((k + 1 - 5) * 4 + 3) % 4 = 2)]
        simp only [hb0div, hL]
        -- hL rewrote the byte count k + 1 - 1 to k already via hb0div
        by_cases hc4 : k = 4
        · subst hc4
          rw [if_pos rfl, if_neg hlenge, hx, if_pos (by omega)]
        · rw [if_neg hc4]
          by_cases hc8 : k = 8
          · subst hc8
            rw [if_pos rfl, if_neg hlenge, hx,
              if_pos (show 72057594037927935 < n by
                have : 2 ^ (8 * (8 - 1)) ≤ n := hlo
                omega)]
          · rw [if_neg hc8, if_pos (by omega : k < 8), if_neg hlenge, hx,
              if_pos (show 2 ^ (8 * (k - 1)) - 1 < n by omega)]

theorem remove_length_prefix_ok_of (metadata : List Nat) (v : Nat)
    (hdec : compactDecode metadata = some v)
    (hlen : v + compactLen v = metadata.length)
    (hsz : metadata.length < 2 ^ 64) :
    remove_length_prefix metadata = .ok (metadata.drop (compactLen v)) := by
  have hlt : v + compactLen v < 2 ^ 64 := hlen ▸ hsz
  unfold remove_length_prefix checkedAdd64
  rw [hdec]
  simp [hlt, hlen]
  rw [if_pos (show metadata.length < 18446744073709551616 from hsz)]
  simp

theorem driveLoop_append_continue (pre l : List executor.State)
    (h : ∀ s ∈ pre, continuesLoop s) :
    driveLoop (pre ++ l) = driveLoop l := by
  induction pre with
  | nil => rfl
  | cons s pre ih =>
    have hs : continuesLoop s := h s (List.mem_cons_self s pre)
    have ht : ∀ x ∈ pre, continuesLoop x := fun x hx => h x (List.mem_cons_of_mem s hx)
    cases s with
    | ReadyToRun => simpa [driveLoop] using ih ht
    | LogEmit lg => simpa [driveLoop] using ih ht
    | Finished data => simp [continuesLoop] at hs
    | Trapped => simp [continuesLoop] at hs
    | Other ext => simp [continuesLoop] at hs

/-! ## Claims -/

/-- C2: if the leading compact integer of a buffer decodes to `v` with
encoded length `compactLen v`, and `v + compactLen v` differs from the
buffer's total length or overflows the 64-bit checked addition, then
` remove_length_prefix` returns the `BadLengthPrefix` error.  The sum is
taken in exact arithmetic (`Nat`), mirroring the program's
overflow-checked `checked_add`: it never wraps, however large `v` is. -/
theorem remove_length_prefix_mismatch_or_overflow
    (metadata : List Nat) (v : Nat)
    (hdec : compactDecode metadata = some v)
    (hbad : v + compactLen v ≠ metadata.length ∨ 2 ^ 64 ≤ v + compactLen v) :
    remove_length_prefix metadata = .error .BadLengthPrefix := by
  unfold remove_length_prefix checkedAdd64
  rw [hdec]
  by_cases h : v + compactLen v < 2 ^ 64
  · have hne : v + compactLen v ≠ metadata.length := by
      rcases hbad with h1 | h1
      · exact h1
      · omega
    simp only []
    rw [if_pos h]
    simp [hne]
  · simp only []
    rw [if_neg h]

/-- Witness for C2 at the spec's concrete mismatch scenario
`[0x04, 0x41, 0x42]` (decoded value 1, prefix length 1, buffer length
3). -/
theorem remove_length_prefix_mismatch_or_overflow_witness :
    remove_length_prefix [4, 65, 66] = .error .BadLengthPrefix :=
  remove_length_prefix_mismatch_or_overflow [4, 65, 66] 1 (by decide)
    (Or.inl (by decide))

/-- C5: whenever the decoded prefix value plus its encoded length equals
the buffer's total length (a representable `usize` length),
` remove_length_prefix` succeeds with exactly the suffix after the prefix
bytes; concretely, `[0x04, 0x41, 0x42]` is a malformed-prefix error and
`[0x08, 0x41, 0x42]` succeeds with `[0x41, 0x42]`. -/
theorem remove_length_prefix_success_and_examples :
    (∀ (metadata : List Nat) (v : Nat),
        compactDecode metadata = some v →
        v + compactLen v = metadata.length →
        metadata.length < 2 ^ 64 →
        remove_length_prefix metadata = .ok (metadata.drop (compactLen v)))
    ∧ remove_length_prefix [4, 65, 66] = .error .BadLengthPrefix
    ∧ remove_length_prefix [8, 65, 66] = .ok [65, 66] :=
  ⟨fun metadata v hdec hlen hsz => remove_length_prefix_ok_of metadata v hdec hlen hsz,
    by decide, by decide⟩

/-- Witness for C5: the general success statement applied at
`[0x08, 0x41, 0x42]` with decoded value 2. -/
theorem remove_length_prefix_success_and_examples_witness :
    remove_length_prefix [8, 65, 66] = .ok [65, 66] :=
  remove_length_prefix_success_and_examples.1 [8, 65, 66] 2 (by decide)
    (by decide) (by decide)

/-- C6: every buffer shorter than the minimum valid compact prefix
encoding (one byte), i.e. the empty buffer, yields the `BadLengthPrefix`
error; ` remove_length_prefix` is a total function, so no out-of-bounds
access or crash is possible. -/
theorem remove_length_prefix_short_buffer
    (metadata : List Nat) (h : metadata.length < 1) :
    remove_length_prefix metadata = .error .BadLengthPrefix := by
  have hnil : metadata = [] := List.eq_nil_of_length_eq_zero (by omega)
  subst hnil
  rfl

/-- Witness for C6 at the zero-length buffer. -/
theorem remove_length_prefix_short_buffer_witness :
    remove_length_prefix [] = .error .BadLengthPrefix :=
  remove_length_prefix_short_buffer [] (by decide)

/-- C7: when the step loop observes a `LogRequest`, it resolves it (with a
unit value, its content discarded) and continues with the remaining
observations: the outcome is that of the rest of the run, for every log
content — a log request alone never produces an error or termination. -/
theorem driver_log_request_continues (log : List Nat)
    (rest : List executor.State) :
    driveLoop (executor.State.LogEmit log :: rest) = driveLoop rest := rfl

/-- C1: on an execution whose observed states are
`[ReadyToRun, ReadyToRun, Finished bytes]` with a valid compact length
prefix on `bytes`, `metadata_from_virtual_machine_prototype` returns `Ok`
with the bytes after the prefix, paired with the machine converted back to
its reusable prototype form (the same prototype, as the source
documents). -/
theorem metadata_query_success_on_finished_trace
    (vm : WasmVmPrototype) (bytes : List Nat) (v : Nat)
    (hstart : vm.startResult =
      .ok [.ReadyToRun, .ReadyToRun, .Finished bytes])
    (hdec : compactDecode bytes = some v)
    (hlen : v + compactLen v = bytes.length)
    (hsz : bytes.length < 2 ^ 64) :
    metadata_from_virtual_machine_prototype vm =
      some (.ok (bytes.drop (compactLen v), vm)) := by
  unfold metadata_from_virtual_machine_prototype
  rw [hstart]
  simp [driveLoop, remove_length_prefix_ok_of bytes v hdec hlen hsz]

/-- Witness for C1: a prototype whose run is observed as
`[ReadyToRun, ReadyToRun, Finished [0x08, 0x41, 0x42]]` yields
`Ok ([0x41, 0x42], prototype)`. -/
theorem metadata_query_success_on_finished_trace_witness :
    metadata_from_virtual_machine_prototype
        ⟨.ok [.ReadyToRun, .ReadyToRun, .Finished [8, 65, 66]]⟩ =
      some (.ok ([65, 66],
        ⟨.ok [.ReadyToRun, .ReadyToRun, .Finished [8, 65, 66]]⟩)) :=
  metadata_query_success_on_finished_trace
    ⟨.ok [.ReadyToRun, .ReadyToRun, .Finished [8, 65, 66]]⟩ [8, 65, 66] 2
    rfl (by decide) (by decide) (by decide)

/-- C3: if the observed state sequence reaches a state outside
`{ReadyToRun, Finished, Trapped, LogEmit}` after only continue-states
(`ReadyToRun`/`LogEmit`), the driver returns `ExternalityNotAllowed` at
that observation, whatever states would have followed (the machine is not
advanced further). -/
theorem driver_rejects_forbidden_externality
    (vm : WasmVmPrototype) (pre rest : List executor.State) (ext : Nat)
    (hstart : vm.startResult = .ok (pre ++ executor.State.Other ext :: rest))
    (hpre : ∀ s ∈ pre, continuesLoop s) :
    metadata_from_virtual_machine_prototype vm =
      some (.error .ExternalityNotAllowed) := by
  unfold metadata_from_virtual_machine_prototype
  rw [hstart]
  simp only []
  rw [driveLoop_append_continue pre _ hpre]
  rfl

/-- Witness for C3: one `ReadyToRun` observation followed by an
externality request aborts with `ExternalityNotAllowed`. -/
theorem driver_rejects_forbidden_externality_witness :
    metadata_from_virtual_machine_prototype
        ⟨.ok [.ReadyToRun, .Other 0]⟩ =
      some (.error .ExternalityNotAllowed) :=
  driver_rejects_forbidden_externality ⟨.ok [.ReadyToRun, .Other 0]⟩
    [.ReadyToRun] [] 0 rfl (by decide)

/-- C4: if `Trapped` is observed after only continue-states (so before any
`Finished` or forbidden state), the driver returns the `Trapped` error at
that observation and performs no further steps (the result does not depend
on any later states). -/
theorem driver_reports_trap
    (vm : WasmVmPrototype) (pre rest : List executor.State)
    (hstart : vm.startResult = .ok (pre ++ executor.State.Trapped :: rest))
    (hpre : ∀ s ∈ pre, continuesLoop s) :
    metadata_from_virtual_machine_prototype vm = some (.error .Trapped) := by
  unfold metadata_from_virtual_machine_prototype
  rw [hstart]
  simp only []
  rw [driveLoop_append_continue pre _ hpre]
  rfl

/-- Witness for C4: a trap after one `ReadyToRun` observation yields the
`Trapped` error, with further states present after the trap. -/
theorem driver_reports_trap_witness :
    metadata_from_virtual_machine_prototype
        ⟨.ok [.ReadyToRun, .Trapped, .Finished [0]]⟩ =
      some (.error .Trapped) :=
  driver_reports_trap ⟨.ok [.ReadyToRun, .Trapped, .Finished [0]]⟩
    [.ReadyToRun] [.Finished [0]] rfl (by decide)

/-- C9: `metadata_from_runtime_code` is equivalent to creating a fresh
virtual machine from the code and heap pages (surfacing creation failure
as `VmInitialization`), calling
`metadata_from_virtual_machine_prototype`, and dropping the returned
prototype — for every executor creation function, code blob and heap-page
count. -/
theorem metadata_from_runtime_code_refines_spec
    (newVm : List Nat → Nat → Except NewErr WasmVmPrototype)
    (wasm_code : List Nat) (heap_pages : Nat) :
    metadata_from_runtime_code newVm wasm_code heap_pages =
      fetch_metadata_from_code_spec newVm wasm_code heap_pages := by
  unfold metadata_from_runtime_code fetch_metadata_from_code_spec
  cases hnew : newVm wasm_code heap_pages with
  | error e => rfl
  | ok vm =>
    simp only []
    cases h : metadata_from_virtual_machine_prototype vm with
    | none => rfl
    | some r =>
      cases r with
      | error e => rfl
      | ok p => cases p; rfl

/-- C10: when the machine finishes but the output's length prefix is
invalid, `metadata_from_virtual_machine_prototype` returns
`Err(BadLengthPrefix)` — a value carrying no prototype, so the instance is
lost to the caller; and whenever the function does succeed, the prototype
it returns is the one converted back from the machine. -/
theorem driver_bad_prefix_loses_prototype
    (vm : WasmVmPrototype) (pre : List executor.State) (data : List Nat)
    (hstart : vm.startResult = .ok (pre ++ [executor.State.Finished data]))
    (hpre : ∀ s ∈ pre, continuesLoop s)
    (hbad : remove_length_prefix data = .error .BadLengthPrefix) :
    metadata_from_virtual_machine_prototype vm =
        some (.error .BadLengthPrefix) ∧
      ∀ (vm2 : WasmVmPrototype) (out : List Nat) (p : WasmVmPrototype),
        metadata_from_virtual_machine_prototype vm2 = some (.ok (out, p)) →
        p = vm2 := by
  constructor
  · unfold metadata_from_virtual_machine_prototype
    rw [hstart]
    simp only []
    rw [driveLoop_append_continue pre _ hpre]
    simp [driveLoop, hbad]
  · intro vm2 out p h
    unfold metadata_from_virtual_machine_prototype at h
    rcases hs : vm2.startResult with e | trace
    · rw [hs] at h
      simp at h
    · rw [hs] at h
      simp only [] at h
      rcases hd : driveLoop trace with _ | r
      · rw [hd] at h
        simp at h
      · rw [hd] at h
        rcases r with e | o
        · simp at h
        · simp at h
          exact h.2.symm

/-- C8: for every length `n` and payload of exactly `n` bytes, prepending
the canonical compact encoding of `n` and applying
` remove_length_prefix` gives back the payload unchanged.  The hypothesis
`n + compactLen n < 2 ^ 64` states that the whole buffer is representable
in a 64-bit address space, as every `&[u8]` argument of the program is. -/
theorem compact_prefix_roundtrip (n : Nat) (payload : List Nat)
    (hfit : n + compactLen n < 2 ^ 64) (hlen : payload.length = n) :
    remove_length_prefix (compactEncode n ++ payload) = .ok payload := by
  have hn : n < 2 ^ 64 := by
    have := compactLen_pos n
    omega
  have hdec := compactDecode_encode n hn payload
  have htot : n + compactLen n = (compactEncode n ++ payload).length := by
    rw [List.length_append, compactEncode_length, hlen]
    omega
  have hsz : (compactEncode n ++ payload).length < 2 ^ 64 := htot ▸ hfit
  rw [remove_length_prefix_ok_of (compactEncode n ++ payload) n hdec htot hsz]
  rw [← compactEncode_length n]
  rw [List.drop_left]

/-- Witness for C8 at `n = 2` and payload `[0x41, 0x42]`. -/
theorem compact_prefix_roundtrip_witness :
    remove_length_prefix (compactEncode 2 ++ [65, 66]) = .ok [65, 66] :=
  compact_prefix_roundtrip 2 [65, 66] (by decide) (by decide)

/-- Witness for C10: a run finishing with the mismatched buffer
`[0x04, 0x41, 0x42]` yields `Err(BadLengthPrefix)`. -/
theorem driver_bad_prefix_loses_prototype_witness :
    metadata_from_virtual_machine_prototype
        ⟨.ok [.Finished [4, 65, 66]]⟩ =
      some (.error .BadLengthPrefix) :=
  (driver_bad_prefix_loses_prototype ⟨.ok [.Finished [4, 65, 66]]⟩ []
    [4, 65, 66] rfl (by decide) (by decide)).1

end MetadataQuery
